import Mathlib

/-!
# mineMalloc: a shallow embedding of `minemalloc.c`

The allocator keeps a singly linked list of block headers inside the region
between the first program break and the current one.  The embedding keeps
the C program's state explicitly:

* `head`, `tail`: the two global anchors (an address, `0` is `NULL`);
* `hdr`: the header memory, the three fields of the `header_t` stored at an
  address; it keeps one header per address, which is the memory of the
  program as long as no two headers overlap and none lies above the break;
* `mem`: the byte memory that payloads live in;
* `brk`, `limit`: the program break and the highest break the OS grants;
* `lock`: whether `gloabl_malloc_lock` is held.

`size_t` and pointer arithmetic are taken modulo `2^64` (LP64).  Loops over
the list carry a fuel argument; `none` means "the call does not return"
(fuel exhausted on the walk, or `pthread_mutex_lock` on a held lock).
-/

namespace MineMalloc

/-! ## Machine arithmetic -/

/-- The number of values of `size_t` and of a pointer: `2^64`. -/
def SIZE_MOD : Nat := 18446744073709551616

/-- The value of `(void*) -1`, which `sbrk` returns on failure. -/
def SBRK_FAILED : Nat := 18446744073709551615

/-- Addition in `size_t`, and `(char*)p + n` on addresses. -/
def size_add (a b : Nat) : Nat := (a + b) % SIZE_MOD

/-- Subtraction in `size_t`, and `(char*)p - n` on addresses. -/
def size_sub (a b : Nat) : Nat := (a + (SIZE_MOD - b % SIZE_MOD)) % SIZE_MOD

/-- Multiplication in `size_t`. -/
def size_mul (a b : Nat) : Nat := (a * b) % SIZE_MOD

/-- The conversion of a `size_t` value to the `intptr_t` parameter of `sbrk`. -/
def to_intptr (n : Nat) : Int :=
  if n % SIZE_MOD < 9223372036854775808 then ((n % SIZE_MOD : Nat) : Int)
  else ((n % SIZE_MOD : Nat) : Int) - (SIZE_MOD : Int)

/-! ## The layout of `header_t` (LP64) -/

/-- The size and alignment of a C object type. -/
structure CType where
  size : Nat
  align : Nat
  deriving DecidableEq, Repr

/-- The value `n` rounded up to a multiple of `a`. -/
def round_up (n a : Nat) : Nat := (n + a - 1) / a * a

/-- The layout of a `struct`: members in order, each at its alignment, the
whole padded to the largest member alignment. -/
def struct_layout (members : List CType) : CType :=
  let last := members.foldl (fun off m => round_up off m.align + m.size) 0
  let al := members.foldl (fun a m => max a m.align) 1
  ⟨round_up last al, al⟩

/-- The layout of a `union`: the largest member, padded to the largest member
alignment. -/
def union_layout (members : List CType) : CType :=
  let sz := members.foldl (fun a m => max a m.size) 0
  let al := members.foldl (fun a m => max a m.align) 1
  ⟨round_up sz al, al⟩

/-- The type `size_t`. -/
def c_size_t : CType := ⟨8, 8⟩

/-- The type `unsigned`. -/
def c_unsigned : CType := ⟨4, 4⟩

/-- The type `union header *`. -/
def c_pointer : CType := ⟨8, 8⟩

/-- The type `typedef char ALIGN[16]`: sixteen `char`, aligned as `char`. -/
def ALIGN : CType := ⟨16, 1⟩

/-- The type `union header { struct { size_t size; unsigned is_free;
union header *next; } s; ALIGN stub; }`. -/
def header_t : CType :=
  union_layout [struct_layout [c_size_t, c_unsigned, c_pointer], ALIGN]

/-- The value of `sizeof(header_t)`. -/
def sizeof_header_t : Nat := header_t.size

/-! ## The state -/

/-- The fields of `header_t.s`. -/
structure Header where
  size : Nat
  is_free : Nat
  next : Nat
  deriving DecidableEq, Repr

/-- The state of the allocator and of the memory it works on. -/
structure Heap where
  head : Nat
  tail : Nat
  brk : Nat
  limit : Nat
  lock : Bool
  hdr : Nat → Header
  mem : Nat → Nat

/-- The header memory with the header at `a` replaced by `h`. -/
def hdr_write (hdr : Nat → Header) (a : Nat) (h : Header) : Nat → Header :=
  fun x => if x = a then h else hdr x

/-- The assignment `a->s.is_free = v`. -/
def set_is_free (hdr : Nat → Header) (a v : Nat) : Nat → Header :=
  hdr_write hdr a { hdr a with is_free := v }

/-- The assignment `a->s.next = v`. -/
def set_next (hdr : Nat → Header) (a v : Nat) : Nat → Header :=
  hdr_write hdr a { hdr a with next := v }

/-- The state after `pthread_mutex_lock(&gloabl_malloc_lock)`. -/
def lock_acquire (s : Heap) : Heap := { s with lock := true }

/-- The state after `pthread_mutex_unlock(&gloabl_malloc_lock)`. -/
def lock_release (s : Heap) : Heap := { s with lock := false }

/-! ## The break primitive -/

/-- Modelled from the spec: when the OS refuses to move the break by
`increment`: the new break would leave the address space or pass the limit
the OS grants. -/
def sbrk_refused (s : Heap) (increment : Int) : Prop :=
  (s.brk : Int) + increment < 0 ∨ (SIZE_MOD : Int) ≤ (s.brk : Int) + increment ∨
    (s.limit : Int) < (s.brk : Int) + increment

instance (s : Heap) (increment : Int) : Decidable (sbrk_refused s increment) :=
  inferInstanceAs (Decidable
    ((s.brk : Int) + increment < 0 ∨ (SIZE_MOD : Int) ≤ (s.brk : Int) + increment ∨
      (s.limit : Int) < (s.brk : Int) + increment))

/-- Modelled from the spec: the OS break primitive `sbrk`, which is libc code
and not part of the repository.  `sbrk(0)` returns the break and changes
nothing; another increment moves the break by that amount and returns the
old break, or returns `(void*) -1` and changes nothing when the new break
would leave the address space or pass the limit the OS grants. -/
def sbrk (s : Heap) (increment : Int) : Heap × Nat :=
  if increment = 0 then (s, s.brk)
  else if sbrk_refused s increment then (s, SBRK_FAILED)
  else ({ s with brk := ((s.brk : Int) + increment).toNat }, s.brk)

/-! ## `get_free_block` -/

/-- The loop of `get_free_block`, from `curr`: `some a` is the header
returned (`some 0` for `NULL`), `none` is a walk longer than the fuel. -/
def get_free_block_loop (hdr : Nat → Header) (size : Nat) : Nat → Nat → Option Nat
  | 0, _ => none
  | fuel + 1, curr =>
    if curr = 0 then some 0
    else if (hdr curr).is_free ≠ 0 ∧ (hdr curr).size ≥ size then some curr
    else get_free_block_loop hdr size fuel (hdr curr).next

/-- The function `get_free_block(size)`. -/
def get_free_block (fuel : Nat) (s : Heap) (size : Nat) : Option Nat :=
  get_free_block_loop s.hdr size fuel s.head

/-! ## `malloc` -/

/-- The growth path of `malloc`, after the free-list miss. -/
def malloc_grow (s : Heap) (size : Nat) : Heap × Nat :=
  let total_size := size_add sizeof_header_t size
  let r := sbrk s (to_intptr total_size)
  let s1 := r.1
  let block := r.2
  if block = SBRK_FAILED then (lock_release s1, 0)
  else
    let header := block
    let s2 := { s1 with hdr := hdr_write s1.hdr header ⟨size, 0, 0⟩ }
    let s3 := if s2.head = 0 then { s2 with head := header } else s2
    let s4 := if s3.tail ≠ 0 then { s3 with hdr := set_next s3.hdr s3.tail header } else s3
    let s5 := { s4 with tail := header }
    (lock_release s5, size_add header sizeof_header_t)

/-- The function `malloc(size)`: the state after the call and the pointer
returned (`0` for `NULL`). -/
def malloc (fuel : Nat) (s : Heap) (size : Nat) : Option (Heap × Nat) :=
  if size = 0 then some (s, 0)
  else if s.lock then none
  else
    let s1 := lock_acquire s
    match get_free_block fuel s1 size with
    | none => none
    | some header =>
      if header ≠ 0 then
        let s2 := { s1 with hdr := set_is_free s1.hdr header 0 }
        some (lock_release s2, size_add header sizeof_header_t)
      else some (malloc_grow s1 size)

/-! ## `free` -/

/-- The loop of `free` that unlinks the tail, from `tmp`: the header memory
and the `tail` it leaves, `none` for a walk longer than the fuel. -/
def free_unlink_loop : Nat → (Nat → Header) → Nat → Nat → Option ((Nat → Header) × Nat)
  | 0, _, _, _ => none
  | fuel + 1, hdr, tail, tmp =>
    if tmp = 0 then some (hdr, tail)
    else if (hdr tmp).next = tail then
      let hdr1 := set_next hdr tmp 0
      free_unlink_loop fuel hdr1 tmp (hdr1 tmp).next
    else free_unlink_loop fuel hdr tail (hdr tmp).next

/-- The function `free(block)`. -/
def free (fuel : Nat) (s : Heap) (block : Nat) : Option Heap :=
  if block = 0 then some s
  else if s.lock then none
  else
    let s1 := lock_acquire s
    let header := size_sub block sizeof_header_t
    let programbreak := (sbrk s1 0).2
    if size_add block (s1.hdr header).size = programbreak then
      let unlinked : Option Heap :=
        if s1.head = s1.tail then some { s1 with head := 0, tail := 0 }
        else
          match free_unlink_loop fuel s1.hdr s1.tail s1.head with
          | none => none
          | some (hdr1, tail1) => some { s1 with hdr := hdr1, tail := tail1 }
      match unlinked with
      | none => none
      | some s2 =>
        let s3 := (sbrk s2 (to_intptr
          (size_sub (size_sub 0 sizeof_header_t) (s2.hdr header).size))).1
        some (lock_release s3)
    else
      let s2 := { s1 with hdr := set_is_free s1.hdr header 1 }
      some (lock_release s2)

/-! ## `calloc` and `realloc` -/

/-- The call `memset(dst, c, n)` on the byte memory. -/
def memset (mem : Nat → Nat) (dst c n : Nat) : Nat → Nat :=
  fun x => if dst ≤ x ∧ x < dst + n then c % 256 else mem x

/-- The call `memcmp(a, b, n)`: the sign of the first difference.  It reads
the byte memory and writes nothing. -/
def memcmp (mem : Nat → Nat) (a b : Nat) : Nat → Int
  | 0 => 0
  | n + 1 =>
    match memcmp mem a b n with
    | 0 => (mem (a + n) : Int) - (mem (b + n) : Int)
    | d => d

/-- The overflow test of `calloc`: `num != size / nsize` for
`size = num * nsize` in `size_t`. -/
def calloc_overflow (num nsize : Nat) : Bool :=
  num != size_mul num nsize / nsize

/-- The function `calloc(num, nsize)`.  Its local `block` is never assigned:
`block` here is the indeterminate value the variable holds, which the
function hands to `memset` and returns. -/
def calloc (block : Nat) (s : Heap) (num nsize : Nat) : Heap × Nat :=
  if num = 0 ∨ nsize = 0 then (s, 0)
  else
    let size := size_mul num nsize
    if calloc_overflow num nsize then (s, 0)
    else ({ s with mem := memset s.mem block 0 size }, block)

/-- The function `realloc(block, size)`. -/
def realloc (fuel : Nat) (s : Heap) (block size : Nat) : Option (Heap × Nat) :=
  if block = 0 ∨ size = 0 then malloc fuel s size
  else
    let header := size_sub block sizeof_header_t
    if (s.hdr header).size ≥ size then some (s, block)
    else
      match malloc fuel s size with
      | none => none
      | some (s1, ret) =>
        if ret ≠ 0 then
          let _cmp := memcmp s1.mem ret block (s1.hdr header).size
          match free fuel s1 block with
          | none => none
          | some s2 => some (s2, ret)
        else some (s1, ret)

/-! ## States -/

/-- The state before the first call: no block, lock not held, the break at
`b0`. -/
def empty_heap (b0 limit : Nat) (hdr : Nat → Header) (mem : Nat → Nat) : Heap :=
  { head := 0, tail := 0, brk := b0, limit := limit, lock := false,
    hdr := hdr, mem := mem }

/-- The header addresses `l` are the list that starts at `a`: each is not
`NULL`, each links to the next one, the last links to `NULL`. -/
def Chain (hdr : Nat → Header) : Nat → List Nat → Prop
  | a, [] => a = 0
  | a, x :: xs => a = x ∧ x ≠ 0 ∧ Chain hdr (hdr x).next xs

/-- The pointer `p` is live: it is the payload of a block of the list that
is marked used. -/
def Live (s : Heap) (p : Nat) : Prop :=
  p ≠ 0 ∧ ∃ l, Chain s.hdr s.head l ∧ size_sub p sizeof_header_t ∈ l ∧
    size_add (size_sub p sizeof_header_t) sizeof_header_t = p ∧
    (s.hdr (size_sub p sizeof_header_t)).is_free = 0


/-! ## Example states -/

/-- A byte memory that holds `7` at address `4120` and `0` elsewhere. -/
def example_mem : Nat → Nat := fun a => if a = 4120 then 7 else 0

/-- A header memory that holds zeroes. -/
def example_hdr : Nat → Header := fun _ => ⟨0, 0, 0⟩

/-- The empty heap with the break at `4096` and room up to `1048576`. -/
def example_empty : Heap := empty_heap 4096 1048576 example_hdr example_mem

/-- The heap after `malloc(8)` on `example_empty`: one used block of 8 bytes,
header at `4096`, payload at `4120`, break at `4128`. -/
def example_heap : Heap :=
  { head := 4096, tail := 4096, brk := 4128, limit := 1048576, lock := false,
    hdr := hdr_write example_hdr 4096 ⟨8, 0, 0⟩, mem := example_mem }

/-- The heap `example_heap` with no room left above the break. -/
def example_full : Heap := { example_heap with limit := 4128 }

/-! ## Well-formed heaps -/

/-- The block at `x` fits a request of `size` bytes: the test of
`get_free_block`, `is_free && size >= requested`. -/
def Fits (hdr : Nat → Header) (size x : Nat) : Prop :=
  (hdr x).is_free ≠ 0 ∧ (hdr x).size ≥ size

instance (hdr : Nat → Header) (size x : Nat) : Decidable (Fits hdr size x) :=
  inferInstanceAs (Decidable ((hdr x).is_free ≠ 0 ∧ (hdr x).size ≥ size))

/-- The blocks `l`, in list order, lie one after the other from the address
`a` to the address `e`: each header starts where the block before it ends,
and a block is its header followed by its payload. -/
def Tiles (hdr : Nat → Header) : Nat → List Nat → Nat → Prop
  | a, [], e => a = e
  | a, x :: xs, e => x = a ∧ Tiles hdr (a + sizeof_header_t + (hdr x).size) xs e

/-- The list of the heap is `l`: the chain from `head` is `l` and `tail` is
its last header (`NULL` for the empty list). -/
def ListWF (s : Heap) (l : List Nat) : Prop :=
  Chain s.hdr s.head l ∧ s.tail = l.getLastD 0

/-- The heap is well formed with the blocks `l`: the list is `l`, the blocks
tile the region from a non-null base address to the break, every block is
shorter than `2^63` bytes, the break is an address the OS grants, and the
lock is not held. -/
def WellFormed (s : Heap) (l : List Nat) : Prop :=
  ListWF s l ∧ (∃ base, 0 < base ∧ Tiles s.hdr base l s.brk) ∧
    (∀ x ∈ l, sizeof_header_t + (s.hdr x).size < 9223372036854775808) ∧
    s.brk < SIZE_MOD ∧ s.brk ≤ s.limit ∧ s.lock = false

/-- A heap with two used blocks: 32 bytes with the header at `4096`, then
16 bytes with the header at `4152`; the break is at `4192`. -/
def example_two : Heap :=
  { head := 4096, tail := 4152, brk := 4192, limit := 1048576, lock := false,
    hdr := hdr_write (hdr_write example_hdr 4096 ⟨32, 0, 4152⟩) 4152 ⟨16, 0, 0⟩,
    mem := example_mem }

/-- The heap `example_two` after `free(4120)`: the first block is marked
free. -/
def example_two_freed : Heap :=
  { example_two with hdr := set_is_free example_two.hdr 4096 1 }

/-- The size `2^64 - 24`, for which `sizeof(header_t) + size` wraps to `0`. -/
def WRAP_SIZE : Nat := 18446744073709551592

/-- The size `2^64 - 40`, for which `sizeof(header_t) + size` is `2^64 - 16`:
no overflow in `size_t`, and `-16` as the `intptr_t` argument of `sbrk`. -/
def NEGATIVE_SIZE : Nat := 18446744073709551576

/-- The heap after `malloc(WRAP_SIZE)` on `example_empty`: a header at `4096`
and the break still at `4096`. -/
def wrap_once : Heap :=
  { head := 4096, tail := 4096, brk := 4096, limit := 1048576, lock := false,
    hdr := hdr_write example_hdr 4096 ⟨WRAP_SIZE, 0, 0⟩, mem := example_mem }

/-- The heap after a second `malloc(WRAP_SIZE)`: the header at `4096` is
written again and linked to itself. -/
def wrap_twice : Heap :=
  { head := 4096, tail := 4096, brk := 4096, limit := 1048576, lock := false,
    hdr := set_next (hdr_write wrap_once.hdr 4096 ⟨WRAP_SIZE, 0, 0⟩) 4096 4096,
    mem := example_mem }

/-- The heap after `malloc(100)` on `example_empty`. -/
def neg_first : Heap :=
  { head := 4096, tail := 4096, brk := 4220, limit := 1048576, lock := false,
    hdr := hdr_write example_hdr 4096 ⟨100, 0, 0⟩, mem := example_mem }

/-- The heap after `malloc(NEGATIVE_SIZE)` on `neg_first`: a header at the
old break `4220`, and the break moved back to `4204`. -/
def neg_second : Heap :=
  { head := 4096, tail := 4220, brk := 4204, limit := 1048576, lock := false,
    hdr := set_next (hdr_write neg_first.hdr 4220 ⟨NEGATIVE_SIZE, 0, 0⟩) 4096 4220,
    mem := example_mem }

/-- The heap after `malloc(8)` on `neg_second`: a header at `4204`, inside
the payload of the first block. -/
def neg_third : Heap :=
  { head := 4096, tail := 4204, brk := 4236, limit := 1048576, lock := false,
    hdr := set_next (hdr_write neg_second.hdr 4204 ⟨8, 0, 0⟩) 4220 4204,
    mem := example_mem }

/-! ## Basic facts -/

theorem sizeof_header_t_eq : sizeof_header_t = 24 := by decide

theorem to_intptr_cases (n : Nat) (h : n < SIZE_MOD) :
    (n < 9223372036854775808 ∧ to_intptr n = (n : Int)) ∨
    (9223372036854775808 ≤ n ∧ to_intptr n = (n : Int) - 18446744073709551616) := by
  unfold SIZE_MOD at h
  unfold to_intptr SIZE_MOD
  rw [Nat.mod_eq_of_lt h]
  by_cases h1 : n < 9223372036854775808
  · left; simp [h1]
  · right; simp [h1]; omega

theorem sbrk_refused_iff (s : Heap) (i : Int) :
    sbrk_refused s i ↔ ((s.brk : Int) + i < 0 ∨ 18446744073709551616 ≤ (s.brk : Int) + i ∨
      (s.limit : Int) < (s.brk : Int) + i) := by
  unfold sbrk_refused SIZE_MOD
  norm_num

theorem sbrk_fst_eq (s : Heap) (i : Int) :
    (sbrk s i).1 = { s with brk := (sbrk s i).1.brk } := by
  unfold sbrk
  split
  · rfl
  · split <;> rfl

theorem sbrk_of_ok (s : Heap) (i : Int) (h0 : i ≠ 0) (h1 : 0 ≤ (s.brk : Int) + i)
    (h2 : (s.brk : Int) + i < 18446744073709551616) (h3 : (s.brk : Int) + i ≤ s.limit) :
    sbrk s i = ({ s with brk := ((s.brk : Int) + i).toNat }, s.brk) := by
  have hr : ¬ sbrk_refused s i := by rw [sbrk_refused_iff]; omega
  simp only [sbrk, h0, hr, if_false]

theorem sbrk_of_refused (s : Heap) (i : Int) (h0 : i ≠ 0) (hr : sbrk_refused s i) :
    sbrk s i = (s, SBRK_FAILED) := by
  simp only [sbrk, h0, hr, if_false, if_true]

theorem sbrk_ne_failed (s : Heap) (i : Int) (h : (sbrk s i).2 ≠ SBRK_FAILED) :
    (sbrk s i).2 = s.brk ∧ ((sbrk s i).1.brk : Int) = (s.brk : Int) + i ∧
      (i ≠ 0 → (sbrk s i).1.brk < 18446744073709551616 ∧ (sbrk s i).1.brk ≤ s.limit) := by
  by_cases h0 : i = 0
  · simp [sbrk, h0]
  · by_cases hr : sbrk_refused s i
    · rw [sbrk_of_refused s i h0 hr] at h
      exact absurd rfl h
    · simp only [sbrk, h0, hr, if_false]
      rw [sbrk_refused_iff] at hr
      refine ⟨trivial, ?_, ?_⟩
      · omega
      · intro _; omega

theorem sbrk_brk_congr (s t : Heap) (i : Int) (hb : s.brk = t.brk) (hl : s.limit = t.limit) :
    (sbrk s i).1.brk = (sbrk t i).1.brk := by
  have hr : sbrk_refused s i ↔ sbrk_refused t i := by
    unfold sbrk_refused; rw [hb, hl]
  unfold sbrk
  by_cases h0 : i = 0
  · simp only [h0, if_true, hb]
  · by_cases h1 : sbrk_refused t i
    · simp only [h0, h1, hr, if_true, if_false, hb]
    · simp only [h0, h1, hr, if_false, hb]

theorem lock_release_acquire (s : Heap) (h : s.lock = false) :
    lock_release (lock_acquire s) = s := by
  cases s; simp_all [lock_release, lock_acquire]

/-! ## The paths of `malloc` -/

theorem malloc_zero (fuel : Nat) (s : Heap) : malloc fuel s 0 = some (s, 0) := by
  simp [malloc]

/-- The free-list hit: the block found is marked used and its payload returned. -/
theorem malloc_hit (fuel : Nat) (s : Heap) (size header : Nat) (hs : size ≠ 0)
    (hl : s.lock = false) (hg : get_free_block fuel s size = some header) (hh : header ≠ 0) :
    malloc fuel s size =
      some ({ s with hdr := set_is_free s.hdr header 0 }, size_add header sizeof_header_t) := by
  have hg1 : get_free_block fuel (lock_acquire s) size = some header := hg
  simp only [malloc, hs, hl, hg1, if_false, Bool.false_eq_true, ne_eq, hh, not_false_eq_true,
    if_true]
  cases s; simp_all [lock_release, lock_acquire]

theorem sbrk_lock_acquire (s : Heap) (i : Int) :
    sbrk (lock_acquire s) i = (lock_acquire (sbrk s i).1, (sbrk s i).2) := by
  have hr : sbrk_refused (lock_acquire s) i ↔ sbrk_refused s i := Iff.rfl
  unfold sbrk
  by_cases h0 : i = 0
  · simp only [h0, if_true]; rfl
  · by_cases h1 : sbrk_refused s i
    · simp only [h0, h1, hr, if_true, if_false]
    · simp only [h0, h1, hr, if_false]; rfl

/-- The growth path when the break primitive fails. -/
theorem malloc_grow_failed (s : Heap) (size : Nat)
    (hb : sbrk s (to_intptr (size_add sizeof_header_t size)) = (s, SBRK_FAILED)) :
    malloc_grow s size = (lock_release s, 0) := by
  unfold malloc_grow
  simp only [hb, if_true]

/-- The growth path when the break primitive succeeds. -/
theorem malloc_grow_ok (s : Heap) (size : Nat)
    (hb : (sbrk s (to_intptr (size_add sizeof_header_t size))).2 ≠ SBRK_FAILED) :
    malloc_grow s size =
      ({ s with
          head := if s.head = 0 then s.brk else s.head
          tail := s.brk
          brk := (sbrk s (to_intptr (size_add sizeof_header_t size))).1.brk
          lock := false
          hdr := if s.tail ≠ 0 then
              set_next (hdr_write s.hdr s.brk ⟨size, 0, 0⟩) s.tail s.brk
            else hdr_write s.hdr s.brk ⟨size, 0, 0⟩ },
        size_add s.brk sizeof_header_t) := by
  have h2 := (sbrk_ne_failed s _ hb).1
  obtain ⟨nb, h1⟩ : ∃ nb, (sbrk s (to_intptr (size_add sizeof_header_t size))).1 =
      { s with brk := nb } := ⟨_, sbrk_fst_eq s _⟩
  have hb1 : s.brk ≠ SBRK_FAILED := h2 ▸ hb
  unfold malloc_grow
  simp only [h2, hb1, if_false, h1, lock_release]
  by_cases hh : s.head = 0 <;> by_cases ht : s.tail = 0 <;> simp [hh, ht]

/-- The free-list miss with the break primitive failing: nothing changes. -/
theorem malloc_miss_failed (fuel : Nat) (s : Heap) (size : Nat) (hs : size ≠ 0)
    (hl : s.lock = false) (hg : get_free_block fuel s size = some 0)
    (hb : sbrk s (to_intptr (size_add sizeof_header_t size)) = (s, SBRK_FAILED)) :
    malloc fuel s size = some (s, 0) := by
  have hg1 : get_free_block fuel (lock_acquire s) size = some 0 := hg
  have hb1 : sbrk (lock_acquire s) (to_intptr (size_add sizeof_header_t size)) =
      (lock_acquire s, SBRK_FAILED) := by rw [sbrk_lock_acquire, hb]
  simp only [malloc, hs, hl, hg1, if_false, Bool.false_eq_true, ne_eq, not_true_eq_false,
    malloc_grow_failed _ _ hb1, lock_release_acquire s hl]

/-- The free-list miss with the break primitive succeeding: a header is
written at the old break and appended to the list. -/
theorem malloc_miss_grown (fuel : Nat) (s : Heap) (size : Nat) (hs : size ≠ 0)
    (hl : s.lock = false) (hg : get_free_block fuel s size = some 0)
    (hb : (sbrk s (to_intptr (size_add sizeof_header_t size))).2 ≠ SBRK_FAILED) :
    malloc fuel s size = some
      ({ s with
          head := if s.head = 0 then s.brk else s.head
          tail := s.brk
          brk := (sbrk s (to_intptr (size_add sizeof_header_t size))).1.brk
          hdr := if s.tail ≠ 0 then
              set_next (hdr_write s.hdr s.brk ⟨size, 0, 0⟩) s.tail s.brk
            else hdr_write s.hdr s.brk ⟨size, 0, 0⟩ },
        size_add s.brk sizeof_header_t) := by
  have hg1 : get_free_block fuel (lock_acquire s) size = some 0 := hg
  have hb1 : (sbrk (lock_acquire s) (to_intptr (size_add sizeof_header_t size))).2 ≠
      SBRK_FAILED := by rw [sbrk_lock_acquire]; exact hb
  simp only [malloc, hs, hl, hg1, if_false, Bool.false_eq_true, ne_eq, not_true_eq_false,
    malloc_grow_ok _ _ hb1, sbrk_lock_acquire]
  simp only [lock_acquire, hl]

/-! ## The paths of `free` -/

theorem free_null (fuel : Nat) (s : Heap) : free fuel s 0 = some s := by
  simp [free]

/-- The block does not end at the break: it is only marked free. -/
theorem free_mark (fuel : Nat) (s : Heap) (block header : Nat) (hb : block ≠ 0)
    (hl : s.lock = false) (hh : size_sub block sizeof_header_t = header)
    (hne : size_add block (s.hdr header).size ≠ s.brk) :
    free fuel s block = some { s with hdr := set_is_free s.hdr header 1 } := by
  subst hh
  have h1 : size_add block ((lock_acquire s).hdr (size_sub block sizeof_header_t)).size ≠
      (sbrk (lock_acquire s) 0).2 := hne
  simp only [free, hb, hl, if_false, Bool.false_eq_true, h1]
  simp only [lock_release, lock_acquire, hl]

/-- The block ends at the break and is the only one of the list: the list is
emptied and the break primitive is asked to retract. -/
theorem free_shrink_single (fuel : Nat) (s : Heap) (block header : Nat) (hb : block ≠ 0)
    (hl : s.lock = false) (hh : size_sub block sizeof_header_t = header)
    (he : size_add block (s.hdr header).size = s.brk) (hht : s.head = s.tail) :
    free fuel s block =
      some { s with
        head := 0
        tail := 0
        brk := (sbrk s (to_intptr (size_sub (size_sub 0 sizeof_header_t)
          (s.hdr header).size))).1.brk } := by
  subst hh
  have h1 : size_add block ((lock_acquire s).hdr (size_sub block sizeof_header_t)).size =
      (sbrk (lock_acquire s) 0).2 := he
  have h2 : (lock_acquire s).head = (lock_acquire s).tail := hht
  have h4 := sbrk_fst_eq ⟨0, 0, s.brk, s.limit, true, s.hdr, s.mem⟩
    (to_intptr (size_sub (size_sub 0 sizeof_header_t)
      (s.hdr (size_sub block sizeof_header_t)).size))
  have h5 := sbrk_brk_congr ⟨0, 0, s.brk, s.limit, true, s.hdr, s.mem⟩ s
    (to_intptr (size_sub (size_sub 0 sizeof_header_t)
      (s.hdr (size_sub block sizeof_header_t)).size)) rfl rfl
  simp only [free, hb, hl, if_false, Bool.false_eq_true, h1, h2, if_true]
  simp only [lock_acquire]
  rw [h4, h5]
  simp only [lock_release]

/-! ## Facts on the header memory and the example states -/

theorem hdr_write_other (hdr : Nat → Header) (a x : Nat) (h : Header) (hx : x ≠ a) :
    hdr_write hdr a h x = hdr x := by
  simp [hdr_write, hx]

theorem set_next_same (hdr : Nat → Header) (a v : Nat) :
    set_next hdr a v a = { hdr a with next := v } := by
  simp [set_next, hdr_write]

theorem set_is_free_same (hdr : Nat → Header) (a v : Nat) :
    set_is_free hdr a v a = { hdr a with is_free := v } := by
  simp [set_is_free, hdr_write]

theorem get_free_block_empty (fuel : Nat) (s : Heap) (size : Nat) (h : s.head = 0) :
    get_free_block (fuel + 1) s size = some 0 := by
  simp [get_free_block, get_free_block_loop, h]

theorem sbrk_eq_of_failed (s : Heap) (i : Int) (h : (sbrk s i).2 = SBRK_FAILED)
    (hb : s.brk ≠ SBRK_FAILED) : sbrk s i = (s, SBRK_FAILED) := by
  by_cases h0 : i = 0
  · simp only [sbrk, h0, if_true] at h
    exact absurd h hb
  · by_cases hr : sbrk_refused s i
    · exact sbrk_of_refused s i h0 hr
    · simp only [sbrk, h0, hr, if_false] at h
      exact absurd h hb

theorem calloc_overflow_iff (num nsize : Nat) (h2 : 0 < nsize) :
    calloc_overflow num nsize = true ↔ SIZE_MOD ≤ num * nsize := by
  unfold calloc_overflow size_mul
  simp only [bne_iff_ne, ne_eq]
  constructor
  · intro h
    by_contra hlt
    apply h
    rw [Nat.mod_eq_of_lt (by omega), Nat.mul_div_cancel _ h2]
  · intro hge heq
    have h3 : num * nsize % SIZE_MOD / nsize * nsize ≤ num * nsize % SIZE_MOD :=
      Nat.div_mul_le_self _ _
    rw [← heq] at h3
    have h4 : num * nsize % SIZE_MOD < SIZE_MOD := Nat.mod_lt _ (by decide)
    omega

/-- The state `example_heap` is the one `malloc(8)` leaves on `example_empty`. -/
theorem example_heap_reached : malloc 1 example_empty 8 = some (example_heap, 4120) := by
  rfl

/-- The pointer `4120` is live in `example_heap`. -/
theorem example_heap_live : Live example_heap 4120 := by
  refine ⟨by decide, [4096], ?_, ?_, ?_, ?_⟩
  · simp [Chain, example_heap, hdr_write]
  · decide
  · decide
  · decide

/-! ## The claims -/

/-- C1: `malloc(2^64 - 8)` on the empty heap with the break at `4096` asks the
break primitive for `(24 + 2^64 - 8) mod 2^64 = 16` bytes and returns the
non-null pointer `4120` for a block that records `2^64 - 8` bytes and is
marked used, while the break is at `4112`: the range `[p, p + size)` is not
inside the managed region. -/
theorem malloc_wrapped_total_escapes_break (hdr : Nat → Header) (mem : Nat → Nat) :
    ∃ s1, malloc 1 (empty_heap 4096 1048576 hdr mem) 18446744073709551608 = some (s1, 4120) ∧
      s1.brk = 4112 ∧ (s1.hdr 4096).size = 18446744073709551608 ∧
      (s1.hdr 4096).is_free = 0 ∧ ¬ (4120 + 18446744073709551608 ≤ s1.brk) := by
  have hi : to_intptr (size_add sizeof_header_t 18446744073709551608) = 16 := by
    rw [sizeof_header_t_eq]; decide
  have hs : sbrk (empty_heap 4096 1048576 hdr mem) 16 =
      (⟨0, 0, 4112, 1048576, false, hdr, mem⟩, 4096) := by
    rw [sbrk_of_ok _ _ (by decide) (by simp [empty_heap]) (by simp [empty_heap])
      (by simp [empty_heap])]
    simp [empty_heap]
  have hm := malloc_miss_grown 1 (empty_heap 4096 1048576 hdr mem) 18446744073709551608
    (by decide) rfl (get_free_block_empty 0 _ _ rfl) (by rw [hi, hs]; simp [SBRK_FAILED])
  rw [hi, hs, sizeof_header_t_eq] at hm
  simp only [empty_heap, if_true, ne_eq, not_true_eq_false, if_false] at hm
  have hp : size_add 4096 24 = 4120 := by decide
  rw [hp] at hm
  refine ⟨_, hm, rfl, ?_, ?_, ?_⟩
  · simp [hdr_write]
  · simp [hdr_write]
  · simp

/-- C2: `sizeof(header_t)` is 24, which is not a multiple of 16, and from the
empty heap with the break at the 16-aligned address `4096` the call
`malloc(1)` returns `4120`, which is `8` modulo 16; a second `malloc(1)`
returns `4145`, which is odd. -/
theorem malloc_payload_misaligned :
    sizeof_header_t = 24 ∧ sizeof_header_t % 16 = 8 ∧ example_empty.brk % 16 = 0 ∧
    ∃ s1 s2, malloc 1 example_empty 1 = some (s1, 4120) ∧ 4120 % 16 = 8 ∧
      malloc 2 s1 1 = some (s2, 4145) ∧ 4145 % 16 = 1 :=
  ⟨by decide, by decide, by decide,
    ⟨4096, 4096, 4121, 1048576, false, hdr_write example_hdr 4096 ⟨1, 0, 0⟩, example_mem⟩,
    ⟨4096, 4121, 4146, 1048576, false,
      set_next (hdr_write (hdr_write example_hdr 4096 ⟨1, 0, 0⟩) 4121 ⟨1, 0, 0⟩) 4096 4121,
      example_mem⟩, rfl, by decide, rfl, by decide⟩

/-- C5: `calloc` never calls `malloc`: whatever its arguments, the list
anchors, the headers and the break are as before the call, and the pointer
it returns for a product that passes the overflow test is the indeterminate
value of its unassigned local `block`, over which it has run `memset`.  For
`calloc(1, 1)` on the empty heap no block exists afterwards, while
`malloc(1)` there creates the block at `4096`. -/
theorem calloc_does_not_allocate (block : Nat) (s : Heap) (num nsize : Nat) :
    (calloc block s num nsize).1.head = s.head ∧
    (calloc block s num nsize).1.tail = s.tail ∧
    (calloc block s num nsize).1.brk = s.brk ∧
    (calloc block s num nsize).1.hdr = s.hdr ∧
    ((calloc block s num nsize).2 = 0 ∨ (calloc block s num nsize).2 = block) ∧
    calloc block example_empty 1 1 =
      ({ example_empty with mem := memset example_mem block 0 1 }, block) ∧
    (calloc block example_empty 1 1).1.head = 0 ∧
    ∃ s1, malloc 1 example_empty 1 = some (s1, 4120) ∧ s1.head = 4096 := by
  have hgen : (calloc block s num nsize).1.head = s.head ∧
      (calloc block s num nsize).1.tail = s.tail ∧
      (calloc block s num nsize).1.brk = s.brk ∧
      (calloc block s num nsize).1.hdr = s.hdr ∧
      ((calloc block s num nsize).2 = 0 ∨ (calloc block s num nsize).2 = block) := by
    unfold calloc
    by_cases h0 : num = 0 ∨ nsize = 0
    · simp only [h0, if_true, true_or, and_self]
    · by_cases h1 : calloc_overflow num nsize = true
      · simp only [h0, h1, if_true, if_false, true_or, and_self]
      · simp only [h0, h1, if_false, or_true, and_self, Bool.false_eq_true]
  obtain ⟨g1, g2, g3, g4, g5⟩ := hgen
  refine ⟨g1, g2, g3, g4, g5, rfl, rfl,
    ⟨4096, 4096, 4121, 1048576, false, hdr_write example_hdr 4096 ⟨1, 0, 0⟩, example_mem⟩,
    rfl, rfl⟩

/-- C6: for nonzero `count` and `elemSize`, the overflow test of `calloc` is
true exactly when the product `count * elemSize` is at least `2^64`; for such
a pair `calloc` returns null and leaves the state as it was, and for a pair
whose product fits the test does not reject: `calloc` goes on to `memset`
and returns its `block`. -/
theorem calloc_overflow_test_exact (num nsize : Nat) (h1 : 0 < num) (h2 : 0 < nsize) :
    (calloc_overflow num nsize = true ↔ SIZE_MOD ≤ num * nsize) ∧
    (SIZE_MOD ≤ num * nsize → ∀ block s, calloc block s num nsize = (s, 0)) ∧
    (num * nsize < SIZE_MOD → ∀ block s, calloc block s num nsize =
      ({ s with mem := memset s.mem block 0 (num * nsize) }, block)) := by
  have hiff := calloc_overflow_iff num nsize h2
  have h0 : ¬ (num = 0 ∨ nsize = 0) := by omega
  refine ⟨hiff, ?_, ?_⟩
  · intro hge block s
    have ho := hiff.mpr hge
    simp only [calloc, h0, ho, if_true, if_false]
  · intro hlt block s
    have ho : ¬ calloc_overflow num nsize = true := fun h => by
      have := hiff.mp h
      omega
    simp only [calloc, h0, ho, if_false, size_mul, Nat.mod_eq_of_lt hlt, Bool.false_eq_true]

/-- The overflow test of C6 at `count = SIZE_MAX / 2 + 2`, `elemSize = 2`. -/
theorem calloc_overflow_test_exact_witness :
    (calloc_overflow 9223372036854775809 2 = true ↔ SIZE_MOD ≤ 9223372036854775809 * 2) ∧
    (SIZE_MOD ≤ 9223372036854775809 * 2 →
      ∀ block s, calloc block s 9223372036854775809 2 = (s, 0)) ∧
    (9223372036854775809 * 2 < SIZE_MOD → ∀ block s, calloc block s 9223372036854775809 2 =
      ({ s with mem := memset s.mem block 0 (9223372036854775809 * 2) }, block)) :=
  calloc_overflow_test_exact 9223372036854775809 2 (by decide) (by decide)

/-- C7 as stated fails at `newSize = 0`: the pointer `4120` is live in
`example_heap` with recorded size 8, and `realloc(4120, 0)` returns null, not
`4120`. -/
theorem realloc_zero_size_returns_null :
    Live example_heap 4120 ∧
    0 ≤ (example_heap.hdr (size_sub 4120 sizeof_header_t)).size ∧
    realloc 1 example_heap 4120 0 = some (example_heap, 0) ∧
    realloc 1 example_heap 4120 0 ≠ some (example_heap, 4120) := by
  refine ⟨example_heap_live, Nat.zero_le _, ?_, ?_⟩
  · simp [realloc, malloc]
  · simp [realloc, malloc]

/-- C7, amended: for every non-null pointer `p` whose header records size `s`
and every `newSize` with `0 < newSize <= s`, `realloc(p, newSize)` returns `p`
and leaves the whole state unchanged. -/
theorem realloc_within_size_returns_same (fuel : Nat) (s : Heap) (p newSize : Nat)
    (hp : p ≠ 0) (h0 : 0 < newSize)
    (hle : newSize ≤ (s.hdr (size_sub p sizeof_header_t)).size) :
    realloc fuel s p newSize = some (s, p) := by
  have h1 : ¬ (p = 0 ∨ newSize = 0) := by omega
  simp only [realloc, h1, if_false, ge_iff_le, hle, if_true]

/-- The amended C7 at the live pointer `4120` of `example_heap` and `newSize = 8`. -/
theorem realloc_within_size_returns_same_witness :
    realloc 1 example_heap 4120 8 = some (example_heap, 4120) :=
  realloc_within_size_returns_same 1 example_heap 4120 8 (by decide) (by decide) (by decide)

/-- C8: `realloc(4120, 16)` on `example_heap`, whose block at `4120` holds
the byte `7`, returns the new pointer `4152` and marks the old block free,
but copies nothing (it calls `memcmp`): the byte memory is as before the
call, and the first byte of the new payload is `0`, not `7`. -/
theorem realloc_grow_copies_nothing :
    Live example_heap 4120 ∧
    (example_heap.hdr (size_sub 4120 sizeof_header_t)).size = 8 ∧
    example_heap.mem 4120 = 7 ∧
    ∃ s1, realloc 2 example_heap 4120 16 = some (s1, 4152) ∧
      (s1.hdr (size_sub 4120 sizeof_header_t)).is_free = 1 ∧
      s1.mem = example_heap.mem ∧ s1.mem 4152 = 0 ∧ s1.mem 4152 ≠ example_heap.mem 4120 := by
  refine ⟨example_heap_live, by decide, by decide,
    ⟨4096, 4128, 4168, 1048576, false,
      set_is_free (set_next (hdr_write (hdr_write example_hdr 4096 ⟨8, 0, 0⟩) 4128 ⟨16, 0, 0⟩)
        4096 4128) 4096 1, example_mem⟩, ?_, ?_, rfl, ?_, ?_⟩
  · rfl
  · decide
  · decide
  · decide

/-- C9: `realloc(NULL, n)` is `malloc(n)`, and `realloc(p, 0)` is `malloc(0)`,
which returns null and leaves the state, the block of `p` included, as it
was. -/
theorem realloc_null_or_zero_is_malloc (fuel : Nat) (s : Heap) (n p : Nat) :
    realloc fuel s 0 n = malloc fuel s n ∧
    realloc fuel s p 0 = malloc fuel s 0 ∧
    realloc fuel s p 0 = some (s, 0) := by
  refine ⟨?_, ?_, ?_⟩
  · simp [realloc]
  · simp [realloc]
  · simp [realloc, malloc]

/-- C10: for a non-null pointer `p` whose header records less than `newSize`,
when the inner `malloc(newSize)` fails (no free block fits and the break
primitive returns its failure value), `realloc(p, newSize)` returns null and
the state after the call is the state before it. -/
theorem realloc_failure_keeps_state (fuel : Nat) (s : Heap) (p newSize : Nat)
    (hp : p ≠ 0) (hl : s.lock = false)
    (hlt : (s.hdr (size_sub p sizeof_header_t)).size < newSize)
    (hg : get_free_block fuel s newSize = some 0)
    (hb : s.brk ≠ SBRK_FAILED)
    (hf : (sbrk s (to_intptr (size_add sizeof_header_t newSize))).2 = SBRK_FAILED) :
    malloc fuel s newSize = some (s, 0) ∧ realloc fuel s p newSize = some (s, 0) := by
  have h0 : newSize ≠ 0 := by omega
  have hm := malloc_miss_failed fuel s newSize h0 hl hg (sbrk_eq_of_failed s _ hf hb)
  have h1 : ¬ (p = 0 ∨ newSize = 0) := by omega
  have h2 : ¬ (s.hdr (size_sub p sizeof_header_t)).size ≥ newSize := by omega
  refine ⟨hm, ?_⟩
  simp only [realloc, h1, if_false, h2, hm, ne_eq, not_true_eq_false]

/-- The failure of C10 at `realloc(4120, 16)` on `example_full`, which has no room to grow. -/
theorem realloc_failure_keeps_state_witness :
    malloc 2 example_full 16 = some (example_full, 0) ∧
    realloc 2 example_full 4120 16 = some (example_full, 0) :=
  realloc_failure_keeps_state 2 example_full 4120 16 (by decide) (by decide) (by decide)
    (by decide) (by decide) (by decide)

/-! ## The search of the list -/

theorem chain_ne_zero (hdr : Nat → Header) :
    ∀ (l : List Nat) (a : Nat), Chain hdr a l → ∀ x ∈ l, x ≠ 0
  | [], _, _, x, hx => by simp at hx
  | y :: ys, a, hc, x, hx => by
    obtain ⟨-, hy, hrest⟩ := hc
    rcases List.mem_cons.mp hx with rfl | hx
    · exact hy
    · exact chain_ne_zero hdr ys _ hrest x hx

/-- The loop of `get_free_block` on a list `l` with enough fuel: it returns
`NULL` when no block fits, and otherwise the first block that fits. -/
theorem get_free_block_loop_chain (hdr : Nat → Header) (size : Nat) :
    ∀ (l : List Nat) (a fuel : Nat), Chain hdr a l → l.length < fuel →
      ∃ r, get_free_block_loop hdr size fuel a = some r ∧
        ((r = 0 ∧ ∀ x ∈ l, ¬ Fits hdr size x) ∨
         (∃ pre post, l = pre ++ r :: post ∧ Fits hdr size r ∧
            ∀ y ∈ pre, ¬ Fits hdr size y))
  | [], a, fuel, hc, hf => by
    obtain ⟨k, rfl⟩ : ∃ k, fuel = k + 1 := ⟨fuel - 1, by simp at hf; omega⟩
    have ha : a = 0 := hc
    exact ⟨0, by simp [get_free_block_loop, ha], Or.inl ⟨rfl, by simp⟩⟩
  | x :: xs, a, fuel, hc, hf => by
    obtain ⟨k, rfl⟩ : ∃ k, fuel = k + 1 := ⟨fuel - 1, by simp at hf; omega⟩
    obtain ⟨rfl, hx0, hrest⟩ := hc
    by_cases hfit : Fits hdr size a
    · refine ⟨a, ?_, Or.inr ⟨[], xs, rfl, hfit, by simp⟩⟩
      have hfit1 : (hdr a).is_free ≠ 0 ∧ (hdr a).size ≥ size := hfit
      simp only [get_free_block_loop, hx0, if_false]
      rw [if_pos hfit1]
    · have hfit1 : ¬ ((hdr a).is_free ≠ 0 ∧ (hdr a).size ≥ size) := hfit
      obtain ⟨r, hr, hcase⟩ := get_free_block_loop_chain hdr size xs (hdr a).next k hrest
        (by simp at hf; omega)
      refine ⟨r, ?_, ?_⟩
      · simp only [get_free_block_loop, hx0, if_false]
        rw [if_neg hfit1]
        exact hr
      · rcases hcase with ⟨h0, hall⟩ | ⟨pre, post, hl, hfr, hpre⟩
        · left
          refine ⟨h0, ?_⟩
          intro y hy
          rcases List.mem_cons.mp hy with rfl | hy
          · exact hfit
          · exact hall y hy
        · right
          refine ⟨a :: pre, post, by simp [hl], hfr, ?_⟩
          intro y hy
          rcases List.mem_cons.mp hy with rfl | hy
          · exact hfit
          · exact hpre y hy

theorem set_is_free_next (hdr : Nat → Header) (a v : Nat) :
    ∀ x, (set_is_free hdr a v x).next = (hdr x).next := by
  intro x
  by_cases hx : x = a
  · subst hx; rw [set_is_free_same]
  · simp [set_is_free, hdr_write, hx]

theorem set_is_free_size (hdr : Nat → Header) (a v : Nat) :
    ∀ x, (set_is_free hdr a v x).size = (hdr x).size := by
  intro x
  by_cases hx : x = a
  · subst hx; rw [set_is_free_same]
  · simp [set_is_free, hdr_write, hx]

/-- A chain depends on the `next` fields only. -/
theorem chain_congr_next (hdr hdr1 : Nat → Header)
    (h : ∀ x, (hdr1 x).next = (hdr x).next) :
    ∀ (l : List Nat) (a : Nat), Chain hdr a l → Chain hdr1 a l
  | [], _, hc => hc
  | x :: xs, a, hc => by
    obtain ⟨h1, h2, h3⟩ := hc
    refine ⟨h1, h2, ?_⟩
    rw [h x]
    exact chain_congr_next hdr hdr1 h xs _ h3

/-- The list of `example_two` is `[4096, 4152]`. -/
theorem example_two_chain : Chain example_two.hdr example_two.head [4096, 4152] := by
  simp [Chain, example_two, hdr_write]

/-- The list of `example_two_freed` is `[4096, 4152]`. -/
theorem example_two_freed_chain :
    Chain example_two_freed.hdr example_two_freed.head [4096, 4152] := by
  simp [Chain, example_two_freed, example_two, set_is_free, hdr_write]

/-- The list of `example_full` is `[4096]`. -/
theorem example_full_chain : Chain example_full.hdr example_full.head [4096] := by
  simp [Chain, example_full, example_heap, hdr_write]

/-! ## The claims on failure, degenerate arguments and the search -/

/-- C11: for every size > 0, when no block of the list fits the request and
the break primitive returns its failure value, `malloc(size)` returns null
and the state after the call is the state before it: anchors, headers and
break are as they were and no header is appended. -/
theorem malloc_failure_keeps_state (fuel : Nat) (s : Heap) (size : Nat) (l : List Nat)
    (hs : 0 < size) (hl : s.lock = false) (hc : Chain s.hdr s.head l) (hfuel : l.length < fuel)
    (hnone : ∀ x ∈ l, ¬ Fits s.hdr size x) (hb : s.brk ≠ SBRK_FAILED)
    (hf : (sbrk s (to_intptr (size_add sizeof_header_t size))).2 = SBRK_FAILED) :
    malloc fuel s size = some (s, 0) := by
  obtain ⟨r, hr, hcase⟩ := get_free_block_loop_chain s.hdr size l s.head fuel hc hfuel
  have hr0 : r = 0 := by
    rcases hcase with ⟨h0, -⟩ | ⟨pre, post, hl1, hfit, -⟩
    · exact h0
    · exact absurd hfit (hnone r (by simp [hl1]))
  subst hr0
  exact malloc_miss_failed fuel s size (by omega) hl hr (sbrk_eq_of_failed s _ hf hb)

/-- The failure of C11 at `malloc(16)` on `example_full`, which has no room to grow. -/
theorem malloc_failure_keeps_state_witness :
    malloc 2 example_full 16 = some (example_full, 0) :=
  malloc_failure_keeps_state 2 example_full 16 [4096] (by decide) rfl example_full_chain
    (by decide) (by decide) (by decide) (by decide)

/-- C12: `malloc(0)` returns null, `free(NULL)` returns, `calloc(0, m)` and
`calloc(n, 0)` return null, and each of these calls leaves the state as it
was, whatever the state. -/
theorem degenerate_arguments_are_no_ops (fuel : Nat) (s : Heap) (n m block : Nat) :
    malloc fuel s 0 = some (s, 0) ∧ free fuel s 0 = some s ∧
    calloc block s 0 m = (s, 0) ∧ calloc block s n 0 = (s, 0) := by
  refine ⟨malloc_zero fuel s, free_null fuel s, ?_, ?_⟩
  · simp [calloc]
  · simp [calloc]

/-- C17: on a list `l` that ends at `NULL`, with fuel for its length,
`get_free_block(size)` returns; it returns `NULL` exactly when no block of
`l` is free with `size` bytes or more, and otherwise it returns the first
such block in list order. -/
theorem get_free_block_first_fit (fuel : Nat) (s : Heap) (size : Nat) (l : List Nat)
    (hc : Chain s.hdr s.head l) (hfuel : l.length < fuel) :
    ∃ r, get_free_block fuel s size = some r ∧
      (r = 0 ↔ ∀ x ∈ l, ¬ Fits s.hdr size x) ∧
      (r ≠ 0 → ∃ pre post, l = pre ++ r :: post ∧ Fits s.hdr size r ∧
        ∀ y ∈ pre, ¬ Fits s.hdr size y) := by
  obtain ⟨r, hr, hcase⟩ := get_free_block_loop_chain s.hdr size l s.head fuel hc hfuel
  refine ⟨r, hr, ?_, ?_⟩
  · rcases hcase with ⟨h0, hall⟩ | ⟨pre, post, hl1, hfit, -⟩
    · exact ⟨fun _ => hall, fun _ => h0⟩
    · have hmem : r ∈ l := by simp [hl1]
      have hne : r ≠ 0 := chain_ne_zero s.hdr l s.head hc r hmem
      exact ⟨fun h => absurd h hne, fun hall => absurd hfit (hall r hmem)⟩
  · intro hne
    rcases hcase with ⟨h0, -⟩ | h
    · exact absurd h0 hne
    · exact h

/-- The search of C17 on `example_two_freed` for 8 bytes. -/
theorem get_free_block_first_fit_witness :
    ∃ r, get_free_block 3 example_two_freed 8 = some r ∧
      (r = 0 ↔ ∀ x ∈ [4096, 4152], ¬ Fits example_two_freed.hdr 8 x) ∧
      (r ≠ 0 → ∃ pre post, [4096, 4152] = pre ++ r :: post ∧
        Fits example_two_freed.hdr 8 r ∧ ∀ y ∈ pre, ¬ Fits example_two_freed.hdr 8 y) :=
  get_free_block_first_fit 3 example_two_freed 8 [4096, 4152] example_two_freed_chain
    (by decide)

/-- C18: when some block of the list is free with `size` bytes or more,
`malloc(size)` returns the payload of the block `get_free_block` chooses,
and the state after the call differs from the state before it in the
`is_free` flag of that block only, which is `0`: the recorded size and the
link of the block, every other header, the anchors and the break are as
they were, and no header is created. -/
theorem malloc_hit_does_not_split (fuel : Nat) (s : Heap) (size : Nat) (l : List Nat)
    (hs : 0 < size) (hl : s.lock = false) (hc : Chain s.hdr s.head l) (hfuel : l.length < fuel)
    (hsome : ∃ x ∈ l, Fits s.hdr size x) :
    ∃ h, h ∈ l ∧ get_free_block fuel s size = some h ∧ Fits s.hdr size h ∧
      malloc fuel s size =
        some ({ s with hdr := set_is_free s.hdr h 0 }, size_add h sizeof_header_t) ∧
      set_is_free s.hdr h 0 h = ⟨(s.hdr h).size, 0, (s.hdr h).next⟩ ∧
      (∀ y, y ≠ h → set_is_free s.hdr h 0 y = s.hdr y) ∧
      Chain (set_is_free s.hdr h 0) s.head l := by
  obtain ⟨r, hr, hcase⟩ := get_free_block_loop_chain s.hdr size l s.head fuel hc hfuel
  rcases hcase with ⟨-, hall⟩ | ⟨pre, post, hl1, hfit, -⟩
  · obtain ⟨x, hx, hfx⟩ := hsome
    exact absurd hfx (hall x hx)
  · have hmem : r ∈ l := by simp [hl1]
    have hne : r ≠ 0 := chain_ne_zero s.hdr l s.head hc r hmem
    refine ⟨r, hmem, hr, hfit, malloc_hit fuel s size r (by omega) hl hr hne, ?_, ?_, ?_⟩
    · rw [set_is_free_same]
    · intro y hy
      exact hdr_write_other _ _ _ _ hy
    · exact chain_congr_next s.hdr (set_is_free s.hdr r 0) (set_is_free_next s.hdr r 0) l s.head hc

/-- The reuse of C18 at `malloc(8)` on `example_two_freed`. -/
theorem malloc_hit_does_not_split_witness :
    ∃ h, h ∈ [4096, 4152] ∧ get_free_block 3 example_two_freed 8 = some h ∧
      Fits example_two_freed.hdr 8 h ∧
      malloc 3 example_two_freed 8 =
        some ({ example_two_freed with hdr := set_is_free example_two_freed.hdr h 0 },
          size_add h sizeof_header_t) ∧
      set_is_free example_two_freed.hdr h 0 h =
        ⟨(example_two_freed.hdr h).size, 0, (example_two_freed.hdr h).next⟩ ∧
      (∀ y, y ≠ h → set_is_free example_two_freed.hdr h 0 y = example_two_freed.hdr y) ∧
      Chain (set_is_free example_two_freed.hdr h 0) example_two_freed.head [4096, 4152] :=
  malloc_hit_does_not_split 3 example_two_freed 8 [4096, 4152] (by decide) rfl
    example_two_freed_chain (by decide) ⟨4096, by decide, by decide⟩

/-! ## Facts on chains and tilings -/

/-- A chain depends on the `next` fields of its own headers only. -/
theorem chain_congr_on (hdr hdr1 : Nat → Header) :
    ∀ (l : List Nat) (a : Nat), (∀ x ∈ l, (hdr1 x).next = (hdr x).next) →
      Chain hdr a l → Chain hdr1 a l
  | [], _, _, hc => hc
  | x :: xs, a, h, hc => by
    obtain ⟨h1, h2, h3⟩ := hc
    refine ⟨h1, h2, ?_⟩
    rw [h x (by simp)]
    exact chain_congr_on hdr hdr1 xs _ (fun y hy => h y (by simp [hy])) h3

/-- The list that starts at an address is unique. -/
theorem chain_unique (hdr : Nat → Header) :
    ∀ (l1 l2 : List Nat) (a : Nat), Chain hdr a l1 → Chain hdr a l2 → l1 = l2
  | [], [], _, _, _ => rfl
  | [], y :: ys, a, h1, h2 => by
    have ha : a = 0 := h1
    obtain ⟨hy, hy0, -⟩ := h2
    omega
  | x :: xs, [], a, h1, h2 => by
    have ha : a = 0 := h2
    obtain ⟨hx, hx0, -⟩ := h1
    omega
  | x :: xs, y :: ys, a, h1, h2 => by
    obtain ⟨hx, -, hxs⟩ := h1
    obtain ⟨hy, -, hys⟩ := h2
    have hxy : x = y := by omega
    subst hxy
    rw [chain_unique hdr xs ys _ hxs hys]

/-- The list without its last header, once the link of the header before it
is cleared. -/
theorem chain_drop_last (hdr : Nat → Header) (y t : Nat) :
    ∀ (pre : List Nat) (a : Nat), Chain hdr a (pre ++ [y, t]) → y ∉ pre →
      Chain (set_next hdr y 0) a (pre ++ [y])
  | [], a, hc, _ => by
    obtain ⟨h1, h2, -⟩ := hc
    refine ⟨h1, h2, ?_⟩
    rw [set_next_same]
    rfl
  | z :: zs, a, hc, hy => by
    obtain ⟨h1, h2, h3⟩ := hc
    have hzy : z ≠ y := fun h => hy (by simp [h])
    refine ⟨h1, h2, ?_⟩
    have hz : set_next hdr y 0 z = hdr z := hdr_write_other _ _ _ _ hzy
    rw [hz]
    exact chain_drop_last hdr y t zs _ h3 (fun h => hy (by simp [h]))

theorem set_next_size (hdr : Nat → Header) (a v : Nat) :
    ∀ x, (set_next hdr a v x).size = (hdr x).size := by
  intro x
  by_cases hx : x = a
  · subst hx; rw [set_next_same]
  · simp [set_next, hdr_write, hx]

theorem set_next_is_free (hdr : Nat → Header) (a v : Nat) :
    ∀ x, (set_next hdr a v x).is_free = (hdr x).is_free := by
  intro x
  by_cases hx : x = a
  · subst hx; rw [set_next_same]
  · simp [set_next, hdr_write, hx]

/-- The last element of a list that ends in `x` is `x`. -/
theorem last_of_concat (l : List Nat) (x d : Nat) : (l ++ [x]).getLastD d = x :=
  List.getLastD_concat d x l

/-- A tiling depends on the `size` fields of its own headers only. -/
theorem tiles_congr_on (hdr hdr1 : Nat → Header) :
    ∀ (l : List Nat) (a e : Nat), (∀ x ∈ l, (hdr1 x).size = (hdr x).size) →
      Tiles hdr a l e → Tiles hdr1 a l e
  | [], _, _, _, ht => ht
  | x :: xs, a, e, h, ht => by
    obtain ⟨h1, h2⟩ := ht
    refine ⟨h1, ?_⟩
    rw [h x (by simp)]
    exact tiles_congr_on hdr hdr1 xs _ e (fun y hy => h y (by simp [hy])) h2

/-- The blocks of a tiling lie between its two ends. -/
theorem tiles_bounds (hdr : Nat → Header) :
    ∀ (l : List Nat) (a e : Nat), Tiles hdr a l e →
      a ≤ e ∧ ∀ y ∈ l, a ≤ y ∧ y + sizeof_header_t + (hdr y).size ≤ e
  | [], a, e, ht => by
    have hae : a = e := ht
    exact ⟨by omega, by simp⟩
  | x :: xs, a, e, ht => by
    obtain ⟨h1, h2⟩ := ht
    obtain ⟨h3, h4⟩ := tiles_bounds hdr xs _ e h2
    subst h1
    refine ⟨by omega, ?_⟩
    intro y hy
    rcases List.mem_cons.mp hy with rfl | hy
    · exact ⟨le_refl _, h3⟩
    · have := h4 y hy
      omega

/-- A tiling with a last block: the blocks before it end where it starts. -/
theorem tiles_concat (hdr : Nat → Header) (x : Nat) :
    ∀ (l : List Nat) (a e : Nat), Tiles hdr a (l ++ [x]) e ↔
      (Tiles hdr a l x ∧ x + sizeof_header_t + (hdr x).size = e)
  | [], a, e => by
    constructor
    · rintro ⟨h1, h2⟩
      have h3 : a + sizeof_header_t + (hdr x).size = e := h2
      subst h1
      exact ⟨rfl, h3⟩
    · rintro ⟨h1, h2⟩
      have h3 : a = x := h1
      subst h3
      exact ⟨rfl, h2⟩
  | z :: zs, a, e => by
    constructor
    · rintro ⟨h1, h2⟩
      obtain ⟨h3, h4⟩ := (tiles_concat hdr x zs _ e).mp h2
      exact ⟨⟨h1, h3⟩, h4⟩
    · rintro ⟨⟨h1, h3⟩, h4⟩
      exact ⟨h1, (tiles_concat hdr x zs _ e).mpr ⟨h3, h4⟩⟩

/-- The block that ends where the tiling ends is the last block. -/
theorem tiles_end_is_last (hdr : Nat → Header) (l : List Nat) (a e x : Nat)
    (ht : Tiles hdr a l e) (hx : x ∈ l) (he : x + sizeof_header_t + (hdr x).size = e) :
    ∃ pre, l = pre ++ [x] := by
  rcases List.eq_nil_or_concat l with rfl | ⟨pre, t, hl⟩
  · simp at hx
  · rw [List.concat_eq_append] at hl
    subst hl
    obtain ⟨h1, h2⟩ := (tiles_concat hdr t pre a e).mp ht
    rcases List.mem_append.mp hx with hx | hx
    · have h3 := (tiles_bounds hdr pre a t h1).2 x hx
      have h4 := sizeof_header_t_eq
      omega
    · have hxt : x = t := by simpa using hx
      subst hxt
      exact ⟨pre, rfl⟩

/-- The loop of `free` on a list of two blocks or more, with fuel for its
length: it clears the link of the block before the last and makes that
block the tail. -/
theorem free_unlink_loop_chain (hdr : Nat → Header) (y t : Nat) :
    ∀ (pre : List Nat) (a fuel : Nat), Chain hdr a (pre ++ [y, t]) →
      (∀ w ∈ pre ++ [y], w ≠ t) → pre.length + 2 ≤ fuel →
      free_unlink_loop fuel hdr t a = some (set_next hdr y 0, y)
  | [], a, fuel, hc, _, hf => by
    obtain ⟨k, rfl⟩ : ∃ k, fuel = k + 2 := ⟨fuel - 2, by simp at hf; omega⟩
    obtain ⟨h1, h2, h3, -, -⟩ := hc
    subst h1
    have h4 : (set_next hdr a 0 a).next = 0 := by rw [set_next_same]
    simp only [free_unlink_loop, h2, if_false, h3, if_true, h4]
  | z :: zs, a, fuel, hc, hne, hf => by
    obtain ⟨k, rfl⟩ : ∃ k, fuel = k + 1 := ⟨fuel - 1, by simp at hf; omega⟩
    obtain ⟨h1, h2, h3⟩ := hc
    subst h1
    have hnext : (hdr a).next ≠ t := by
      cases zs with
      | nil =>
        obtain ⟨h4, -, -⟩ := h3
        rw [h4]
        exact hne y (by simp)
      | cons w ws =>
        obtain ⟨h4, -, -⟩ := h3
        rw [h4]
        exact hne w (by simp)
    simp only [free_unlink_loop, h2, if_false, hnext]
    exact free_unlink_loop_chain hdr y t zs _ k h3
      (fun w hw => hne w (by simp at hw ⊢; tauto)) (by simp at hf; omega)

/-- The block ends at the break and the list has other blocks: the loop
unlinks the tail and the break primitive is asked to retract. -/
theorem free_shrink_unlink (fuel : Nat) (s : Heap) (block header : Nat) (hb : block ≠ 0)
    (hl : s.lock = false) (hh : size_sub block sizeof_header_t = header)
    (he : size_add block (s.hdr header).size = s.brk) (hht : s.head ≠ s.tail)
    (hdr1 : Nat → Header) (tail1 : Nat)
    (hloop : free_unlink_loop fuel s.hdr s.tail s.head = some (hdr1, tail1)) :
    free fuel s block =
      some { s with
        tail := tail1
        hdr := hdr1
        brk := (sbrk s (to_intptr (size_sub (size_sub 0 sizeof_header_t)
          (hdr1 header).size))).1.brk } := by
  subst hh
  have h1 : size_add block ((lock_acquire s).hdr (size_sub block sizeof_header_t)).size =
      (sbrk (lock_acquire s) 0).2 := he
  have h2 : ¬ (lock_acquire s).head = (lock_acquire s).tail := hht
  have h3 : free_unlink_loop fuel (lock_acquire s).hdr (lock_acquire s).tail
      (lock_acquire s).head = some (hdr1, tail1) := hloop
  have h4 := sbrk_fst_eq ⟨s.head, tail1, s.brk, s.limit, true, hdr1, s.mem⟩
    (to_intptr (size_sub (size_sub 0 sizeof_header_t)
      (hdr1 (size_sub block sizeof_header_t)).size))
  have h5 := sbrk_brk_congr ⟨s.head, tail1, s.brk, s.limit, true, hdr1, s.mem⟩ s
    (to_intptr (size_sub (size_sub 0 sizeof_header_t)
      (hdr1 (size_sub block sizeof_header_t)).size)) rfl rfl
  simp only [free, hb, hl, if_false, Bool.false_eq_true, h1, h2, h3, if_true]
  simp only [lock_acquire]
  rw [h4, h5]
  simp only [lock_release]

/-- The single-block shrink with the break it leaves named. -/
theorem free_shrink_single_at (fuel : Nat) (s : Heap) (block header nb : Nat)
    (hb : block ≠ 0) (hl : s.lock = false) (hh : size_sub block sizeof_header_t = header)
    (he : size_add block (s.hdr header).size = s.brk) (hht : s.head = s.tail)
    (hnb : (sbrk s (to_intptr (size_sub (size_sub 0 sizeof_header_t)
      (s.hdr header).size))).1.brk = nb) :
    free fuel s block = some { s with head := 0, tail := 0, brk := nb } := by
  subst hnb
  exact free_shrink_single fuel s block header hb hl hh he hht

/-- The unlinking shrink with the break it leaves named. -/
theorem free_shrink_unlink_at (fuel : Nat) (s : Heap) (block header nb : Nat)
    (hb : block ≠ 0) (hl : s.lock = false) (hh : size_sub block sizeof_header_t = header)
    (he : size_add block (s.hdr header).size = s.brk) (hht : s.head ≠ s.tail)
    (hdr1 : Nat → Header) (tail1 : Nat)
    (hloop : free_unlink_loop fuel s.hdr s.tail s.head = some (hdr1, tail1))
    (hsize : (hdr1 header).size = (s.hdr header).size)
    (hnb : (sbrk s (to_intptr (size_sub (size_sub 0 sizeof_header_t)
      (s.hdr header).size))).1.brk = nb) :
    free fuel s block = some { s with tail := tail1, hdr := hdr1, brk := nb } := by
  subst hnb
  have h := free_shrink_unlink fuel s block header hb hl hh he hht hdr1 tail1 hloop
  rw [hsize] at h
  exact h

/-- The retraction that `free` asks for moves the break back to the header
of a block that ends at the break. -/
theorem sbrk_retract (s : Heap) (size x : Nat)
    (h1 : x + sizeof_header_t + size = s.brk)
    (h2 : sizeof_header_t + size < 9223372036854775808)
    (h3 : s.brk ≤ s.limit) (h4 : s.brk < SIZE_MOD) :
    (sbrk s (to_intptr (size_sub (size_sub 0 sizeof_header_t) size))).1.brk = x := by
  simp only [sizeof_header_t_eq, SIZE_MOD] at h1 h2 h4
  have hsub : size_sub (size_sub 0 sizeof_header_t) size =
      18446744073709551616 - (24 + size) := by
    simp only [size_sub, sizeof_header_t_eq, SIZE_MOD]; omega
  have hj := to_intptr_cases (18446744073709551616 - (24 + size))
    (by simp only [SIZE_MOD]; omega)
  rw [hsub, sbrk_of_ok _ _ (by omega) (by omega) (by omega) (by omega)]
  simp only
  omega

/-- C13: in a well-formed heap with the blocks `l`, for a live pointer `p`
whose payload ends at the break, `free(p)` returns; it retracts the break by
`sizeof(header_t)` plus the recorded size, the block of `p` is the last of
`l` and the list afterwards is `l` without it, well formed again: the block
before it, if any, is the tail with a null link, an emptied list has
`head = tail = NULL`, and no block changes its size or its `is_free` flag. -/
theorem free_trailing_block_unlinks (fuel : Nat) (s : Heap) (p : Nat) (l : List Nat)
    (hwf : WellFormed s l) (hlive : Live s p)
    (hend : p + (s.hdr (size_sub p sizeof_header_t)).size = s.brk)
    (hfuel : l.length ≤ fuel) :
    ∃ s1 pre, free fuel s p = some s1 ∧ l = pre ++ [size_sub p sizeof_header_t] ∧
      s1.brk + (sizeof_header_t + (s.hdr (size_sub p sizeof_header_t)).size) = s.brk ∧
      WellFormed s1 pre ∧
      s1.head = pre.headD 0 ∧ s1.tail = pre.getLastD 0 ∧
      (pre ≠ [] → (s1.hdr s1.tail).next = 0) ∧
      (∀ y, (s1.hdr y).size = (s.hdr y).size ∧ (s1.hdr y).is_free = (s.hdr y).is_free) := by
  obtain ⟨⟨hchain, htail⟩, ⟨base, hbase, htiles⟩, hsizes, hbrk, hlim, hlock⟩ := hwf
  obtain ⟨hp0, l1, hchain1, hmem1, hpx, -⟩ := hlive
  have hl1 : l1 = l := chain_unique s.hdr l1 l s.head hchain1 hchain
  subst hl1
  generalize hx : size_sub p sizeof_header_t = x at *
  have h24 := sizeof_header_t_eq
  have hbx := (tiles_bounds s.hdr l1 base s.brk htiles).2 x hmem1
  have hpeq : p = x + sizeof_header_t := by
    rw [← hpx]
    simp only [size_add, SIZE_MOD] at hbrk ⊢
    omega
  obtain ⟨pre, hpre⟩ := tiles_end_is_last s.hdr l1 base s.brk x htiles hmem1 (by omega)
  subst hpre
  obtain ⟨htpre, -⟩ := (tiles_concat s.hdr x pre base s.brk).mp htiles
  have hend1 : size_add p (s.hdr x).size = s.brk := by
    simp only [size_add, SIZE_MOD] at hbrk ⊢
    omega
  have hbrk1 := sbrk_retract s (s.hdr x).size x (by omega) (hsizes x hmem1) hlim hbrk
  have hsz : ∀ w ∈ pre, sizeof_header_t + (s.hdr w).size < 9223372036854775808 :=
    fun w hw => hsizes w (List.mem_append_left _ hw)
  rcases List.eq_nil_or_concat pre with rfl | ⟨pre1, y, hpre1⟩
  · -- the only block of the list
    have hhead : s.head = x := hchain.1
    have htl : s.tail = x := htail
    have hfree := free_shrink_single_at fuel s p x x hp0 hlock hx hend1
      (by rw [hhead, htl]) hbrk1
    have hb1 : x + (sizeof_header_t + (s.hdr x).size) = s.brk := by omega
    have hb2 : x < SIZE_MOD := by omega
    have hb3 : x ≤ s.limit := by omega
    refine ⟨_, [], hfree, rfl, hb1, ?_, rfl, rfl, fun h => absurd rfl h,
      fun y => ⟨rfl, rfl⟩⟩
    exact ⟨⟨rfl, rfl⟩, ⟨base, hbase, htpre⟩, fun w hw => absurd hw (List.not_mem_nil w),
      hb2, hb3, hlock⟩
  · -- the list has a block before the last
    rw [List.concat_eq_append] at hpre1
    subst hpre1
    have hbpre := (tiles_bounds s.hdr (pre1 ++ [y]) base x htpre).2
    obtain ⟨htpre1, -⟩ := (tiles_concat s.hdr y pre1 base x).mp htpre
    have hbpre1 := (tiles_bounds s.hdr pre1 base y htpre1).2
    have hchain2 : Chain s.hdr s.head (pre1 ++ [y, x]) := by
      rw [List.append_assoc] at hchain
      exact hchain
    have hnex : ∀ w ∈ pre1 ++ [y], w ≠ x := by
      intro w hw
      have := hbpre w hw
      omega
    have hynot : y ∉ pre1 := by
      intro hy
      have := hbpre1 y hy
      omega
    have htl : s.tail = x := by
      rw [htail]
      exact last_of_concat (pre1 ++ [y]) x 0
    have hhead : s.head ≠ s.tail := by
      rw [htl]
      cases pre1 with
      | nil =>
        have : s.head = y := hchain2.1
        rw [this]
        exact hnex y (List.mem_append_right _ (List.mem_singleton_self y))
      | cons w ws =>
        have : s.head = w := hchain2.1
        rw [this]
        exact hnex w (List.mem_append_left _ (List.mem_cons_self w ws))
    have hlen : pre1.length + 2 ≤ fuel := by
      rw [List.length_append, List.length_append, List.length_singleton,
        List.length_singleton] at hfuel
      omega
    have hloop := free_unlink_loop_chain s.hdr y x pre1 s.head fuel hchain2 hnex hlen
    rw [← htl] at hloop
    have hfree := free_shrink_unlink_at fuel s p x x hp0 hlock hx hend1 hhead _ _ hloop
      (set_next_size s.hdr y 0 x) hbrk1
    have hc3 := chain_drop_last s.hdr y x pre1 s.head hchain2 hynot
    have hb1 : x + (sizeof_header_t + (s.hdr x).size) = s.brk := by omega
    have hb2 : x < SIZE_MOD := by omega
    have hb3 : x ≤ s.limit := by omega
    have hlast : y = (pre1 ++ [y]).getLastD 0 := (last_of_concat pre1 y 0).symm
    refine ⟨_, pre1 ++ [y], hfree, rfl, hb1, ?_, ?_, hlast, ?_, ?_⟩
    · refine ⟨⟨hc3, hlast⟩, ⟨base, hbase, ?_⟩, ?_, hb2, hb3, hlock⟩
      · exact tiles_congr_on s.hdr _ (pre1 ++ [y]) base x
          (fun w _ => set_next_size s.hdr y 0 w) htpre
      · intro w hw
        have hw1 := hsz w hw
        have hw2 : (set_next s.hdr y 0 w).size = (s.hdr w).size := set_next_size s.hdr y 0 w
        show sizeof_header_t + (set_next s.hdr y 0 w).size < 9223372036854775808
        rw [hw2]
        exact hw1
    · cases pre1 with
      | nil => exact hchain2.1
      | cons w ws => exact hchain2.1
    · intro _
      show (set_next s.hdr y 0 y).next = 0
      rw [set_next_same]
    · intro w
      exact ⟨set_next_size s.hdr y 0 w, set_next_is_free s.hdr y 0 w⟩

/-- The heap `example_two` is well formed with the blocks `[4096, 4152]`. -/
theorem example_two_well_formed : WellFormed example_two [4096, 4152] := by
  refine ⟨⟨example_two_chain, rfl⟩, ⟨4096, by decide, ?_⟩, ?_, by decide, by decide, rfl⟩
  · simp [Tiles, example_two, hdr_write, sizeof_header_t_eq]
  · intro x hx
    simp only [List.mem_cons, List.mem_singleton, List.not_mem_nil, or_false] at hx
    rcases hx with rfl | rfl <;> simp [example_two, hdr_write, sizeof_header_t_eq]

/-- The pointer `4176` is live in `example_two`. -/
theorem example_two_live_last : Live example_two 4176 :=
  ⟨by decide, [4096, 4152], example_two_chain, by decide, by decide, by decide⟩

/-- The pointer `4120` is live in `example_two`. -/
theorem example_two_live_first : Live example_two 4120 :=
  ⟨by decide, [4096, 4152], example_two_chain, by decide, by decide, by decide⟩

/-- The trailing free of C13 at `free(4176)` on `example_two`. -/
theorem free_trailing_block_unlinks_witness :
    ∃ s1 pre, free 2 example_two 4176 = some s1 ∧
      [4096, 4152] = pre ++ [size_sub 4176 sizeof_header_t] ∧
      s1.brk + (sizeof_header_t + (example_two.hdr (size_sub 4176 sizeof_header_t)).size) =
        example_two.brk ∧
      WellFormed s1 pre ∧
      s1.head = pre.headD 0 ∧ s1.tail = pre.getLastD 0 ∧
      (pre ≠ [] → (s1.hdr s1.tail).next = 0) ∧
      (∀ y, (s1.hdr y).size = (example_two.hdr y).size ∧
        (s1.hdr y).is_free = (example_two.hdr y).is_free) :=
  free_trailing_block_unlinks 2 example_two 4176 [4096, 4152] example_two_well_formed
    example_two_live_last (by decide) (by decide)

/-- C14: for a non-null pointer `p` whose payload end is not the break,
`free(p)` returns and changes nothing but the `is_free` flag of the header
of `p`, which becomes `1`: anchors, break, byte memory, the list and its
links, every size and every other flag are as they were. -/
theorem free_interior_block_marks_only (fuel : Nat) (s : Heap) (p : Nat) (l : List Nat)
    (hp : p ≠ 0) (hl : s.lock = false) (hc : Chain s.hdr s.head l)
    (hne : size_add p (s.hdr (size_sub p sizeof_header_t)).size ≠ s.brk) :
    free fuel s p =
      some { s with hdr := set_is_free s.hdr (size_sub p sizeof_header_t) 1 } ∧
    Chain (set_is_free s.hdr (size_sub p sizeof_header_t) 1) s.head l ∧
    (set_is_free s.hdr (size_sub p sizeof_header_t) 1 (size_sub p sizeof_header_t)).is_free
      = 1 ∧
    (∀ y, (set_is_free s.hdr (size_sub p sizeof_header_t) 1 y).size = (s.hdr y).size ∧
      (set_is_free s.hdr (size_sub p sizeof_header_t) 1 y).next = (s.hdr y).next) ∧
    (∀ y, y ≠ size_sub p sizeof_header_t →
      set_is_free s.hdr (size_sub p sizeof_header_t) 1 y = s.hdr y) := by
  refine ⟨free_mark fuel s p _ hp hl rfl hne, ?_, ?_, ?_, ?_⟩
  · exact chain_congr_next s.hdr _ (set_is_free_next s.hdr _ 1) l s.head hc
  · rw [set_is_free_same]
  · intro y
    exact ⟨set_is_free_size s.hdr _ 1 y, set_is_free_next s.hdr _ 1 y⟩
  · intro y hy
    exact hdr_write_other _ _ _ _ hy

/-- The interior free of C14 at `free(4120)` on `example_two`. -/
theorem free_interior_block_marks_only_witness :
    free 0 example_two 4120 =
      some { example_two with
        hdr := set_is_free example_two.hdr (size_sub 4120 sizeof_header_t) 1 } ∧
    Chain (set_is_free example_two.hdr (size_sub 4120 sizeof_header_t) 1) example_two.head
      [4096, 4152] ∧
    (set_is_free example_two.hdr (size_sub 4120 sizeof_header_t) 1
      (size_sub 4120 sizeof_header_t)).is_free = 1 ∧
    (∀ y, (set_is_free example_two.hdr (size_sub 4120 sizeof_header_t) 1 y).size =
        (example_two.hdr y).size ∧
      (set_is_free example_two.hdr (size_sub 4120 sizeof_header_t) 1 y).next =
        (example_two.hdr y).next) ∧
    (∀ y, y ≠ size_sub 4120 sizeof_header_t →
      set_is_free example_two.hdr (size_sub 4120 sizeof_header_t) 1 y = example_two.hdr y) :=
  free_interior_block_marks_only 0 example_two 4120 [4096, 4152] (by decide) rfl
    example_two_chain (by decide)

theorem malloc_grow_lock (s : Heap) (size : Nat) : (malloc_grow s size).1.lock = false := by
  unfold malloc_grow
  simp only
  split <;> rfl

/-- C19: with the lock not held at the call, every return of `malloc` and of
`free` leaves the lock not held, on whichever path the call returns; and the
early returns (`malloc(0)`, `free(NULL)`) do not touch the lock: they return
with the state as it was even when the lock is held. -/
theorem lock_released_on_every_return (fuel : Nat) (s : Heap) (hl : s.lock = false) :
    (∀ size s1 p, malloc fuel s size = some (s1, p) → s1.lock = false) ∧
    (∀ p s1, free fuel s p = some s1 → s1.lock = false) ∧
    (∀ t : Heap, malloc fuel t 0 = some (t, 0) ∧ free fuel t 0 = some t) := by
  refine ⟨?_, ?_, fun t => ⟨malloc_zero fuel t, free_null fuel t⟩⟩
  · intro size s1 p hm
    unfold malloc at hm
    by_cases h0 : size = 0
    · simp only [h0, if_true, Option.some.injEq, Prod.mk.injEq] at hm
      rw [← hm.1]; exact hl
    · simp only [h0, hl, if_false, Bool.false_eq_true] at hm
      cases hg : get_free_block fuel (lock_acquire s) size with
      | none => simp [hg] at hm
      | some header =>
        simp only [hg] at hm
        by_cases hh : header = 0
        · simp only [hh, ne_eq, not_true_eq_false, if_false, Option.some.injEq] at hm
          have := malloc_grow_lock (lock_acquire s) size
          rw [hm] at this
          exact this
        · simp only [ne_eq, hh, not_false_eq_true, if_true, Option.some.injEq,
            Prod.mk.injEq] at hm
          rw [← hm.1]; rfl
  · intro p s1 hf
    unfold free at hf
    by_cases h0 : p = 0
    · simp only [h0, if_true, Option.some.injEq] at hf
      rw [← hf]; exact hl
    · simp only [h0, hl, if_false, Bool.false_eq_true] at hf
      split at hf
      · split at hf
        · simp at hf
        · simp only [Option.some.injEq] at hf
          rw [← hf]; rfl
      · simp only [Option.some.injEq] at hf
        rw [← hf]; rfl

/-- The lock of C19 on `example_two`. -/
theorem lock_released_on_every_return_witness :
    (∀ size s1 p, malloc 3 example_two size = some (s1, p) → s1.lock = false) ∧
    (∀ p s1, free 3 example_two p = some s1 → s1.lock = false) ∧
    (∀ t : Heap, malloc 3 t 0 = some (t, 0) ∧ free 3 t 0 = some t) :=
  lock_released_on_every_return 3 example_two rfl

/-! ## The list and the tiling under sums that `sbrk` cannot take -/

/-- The free-list miss with the outcome of the break primitive named. -/
theorem malloc_miss_grown_at (fuel : Nat) (s : Heap) (size : Nat) (i : Int) (nb : Nat)
    (hs : size ≠ 0) (hl : s.lock = false) (hg : get_free_block fuel s size = some 0)
    (hi : to_intptr (size_add sizeof_header_t size) = i)
    (hsb : sbrk s i = ({ s with brk := nb }, s.brk)) (hne : s.brk ≠ SBRK_FAILED) :
    malloc fuel s size = some
      ({ s with
          head := if s.head = 0 then s.brk else s.head
          tail := s.brk
          brk := nb
          hdr := if s.tail ≠ 0 then
              set_next (hdr_write s.hdr s.brk ⟨size, 0, 0⟩) s.tail s.brk
            else hdr_write s.hdr s.brk ⟨size, 0, 0⟩ },
        size_add s.brk sizeof_header_t) := by
  subst hi
  have h1 : (sbrk s (to_intptr (size_add sizeof_header_t size))).2 ≠ SBRK_FAILED := by
    rw [hsb]; exact hne
  have h2 : (sbrk s (to_intptr (size_add sizeof_header_t size))).1.brk = nb := by
    rw [hsb]
  have hm := malloc_miss_grown fuel s size hs hl hg h1
  rw [h2] at hm
  exact hm

/-- A header that links to itself starts no list that ends at `NULL`. -/
theorem chain_self_loop (hdr : Nat → Header) (a : Nat) (ha : (hdr a).next = a)
    (h0 : a ≠ 0) : ∀ l, ¬ Chain hdr a l
  | [] => fun h => h0 h
  | x :: xs => by
    rintro ⟨h1, -, h2⟩
    subst h1
    rw [ha] at h2
    exact chain_self_loop hdr a ha h0 xs h2

/-- The search never returns on a block that links to itself and does not fit. -/
theorem get_free_block_loop_self_loop (hdr : Nat → Header) (size a : Nat)
    (ha : (hdr a).next = a) (h0 : a ≠ 0) (hnf : ¬ Fits hdr size a) :
    ∀ fuel, get_free_block_loop hdr size fuel a = none
  | 0 => rfl
  | k + 1 => by
    have hnf1 : ¬ ((hdr a).is_free ≠ 0 ∧ (hdr a).size ≥ size) := hnf
    simp only [get_free_block_loop, h0, if_false]
    rw [if_neg hnf1, ha]
    exact get_free_block_loop_self_loop hdr size a ha h0 hnf k

/-- C15: two calls `malloc(2^64 - 24)` on the empty heap, for which
`sizeof(header_t) + size` wraps to `0` and `sbrk(0)` succeeds, both return
`4120`; the second writes its header over the tail and links it to itself,
so `tail.next` is the tail and not `NULL`, no finite list starts at `head`,
and the next `malloc(1)` never returns. -/
theorem malloc_wrapped_twice_breaks_list :
    malloc 1 example_empty WRAP_SIZE = some (wrap_once, 4120) ∧
    Chain wrap_once.hdr wrap_once.head [4096] ∧
    malloc 2 wrap_once WRAP_SIZE = some (wrap_twice, 4120) ∧
    (wrap_twice.hdr wrap_twice.tail).next = wrap_twice.tail ∧ wrap_twice.tail ≠ 0 ∧
    (∀ l, ¬ Chain wrap_twice.hdr wrap_twice.head l) ∧
    (∀ fuel, malloc fuel wrap_twice 1 = none) := by
  have hi : to_intptr (size_add sizeof_header_t WRAP_SIZE) = 0 := by
    rw [sizeof_header_t_eq]; decide
  have hm1 := malloc_miss_grown_at 1 example_empty WRAP_SIZE 0 4096 (by decide) rfl
    (get_free_block_empty 0 _ _ rfl) hi rfl (by decide)
  have hg2 : get_free_block 2 wrap_once WRAP_SIZE = some 0 := by
    simp [get_free_block, get_free_block_loop, wrap_once, hdr_write]
  have hm2 := malloc_miss_grown_at 2 wrap_once WRAP_SIZE 0 4096 (by decide) rfl
    hg2 hi rfl (by decide)
  have hnext : (wrap_twice.hdr 4096).next = 4096 := by
    simp [wrap_twice, set_next, hdr_write]
  have hnf : ¬ Fits wrap_twice.hdr 1 4096 := by
    simp [Fits, wrap_twice, set_next, hdr_write]
  refine ⟨hm1.trans rfl, ?_, hm2.trans rfl, hnext, by decide, ?_, ?_⟩
  · simp [Chain, wrap_once, hdr_write]
  · exact chain_self_loop wrap_twice.hdr 4096 hnext (by decide)
  · intro fuel
    have hloop := get_free_block_loop_self_loop wrap_twice.hdr 1 4096 hnext (by decide) hnf fuel
    have hg : get_free_block fuel (lock_acquire wrap_twice) 1 = none := hloop
    have hl : wrap_twice.lock = false := rfl
    have h1 : (1 : Nat) ≠ 0 := by decide
    simp only [malloc, h1, if_false, hl, Bool.false_eq_true, hg]

/-- C20: after `malloc(100)` on the empty heap, `malloc(2^64 - 40)` does not
overflow `size_t` but passes `-16` to `sbrk`: the break moves back from
`4220` to `4204`, below the header it returns; then `malloc(8)` puts its
header at `4204`, inside the payload `[4120, 4220)` of the first block.
The list `[4096, 4220, 4204]` is not in address order and tiles nothing. -/
theorem malloc_negative_increment_breaks_tiling :
    malloc 1 example_empty 100 = some (neg_first, 4120) ∧
    Tiles neg_first.hdr 4096 [4096] neg_first.brk ∧
    sizeof_header_t + NEGATIVE_SIZE < SIZE_MOD ∧
    malloc 2 neg_first NEGATIVE_SIZE = some (neg_second, 4244) ∧
    neg_second.brk = 4204 ∧
    (∀ base, ¬ Tiles neg_second.hdr base [4096, 4220] neg_second.brk) ∧
    malloc 3 neg_second 8 = some (neg_third, 4228) ∧
    Chain neg_third.hdr neg_third.head [4096, 4220, 4204] ∧
    neg_third.tail = 4204 ∧
    (∀ base, ¬ Tiles neg_third.hdr base [4096, 4220, 4204] neg_third.brk) ∧
    (size_add 4096 sizeof_header_t ≤ 4204 ∧
      4204 < size_add 4096 sizeof_header_t + (neg_third.hdr 4096).size) := by
  have hi : to_intptr (size_add sizeof_header_t NEGATIVE_SIZE) = -16 := by
    rw [sizeof_header_t_eq]; decide
  have hg2 : get_free_block 2 neg_first NEGATIVE_SIZE = some 0 := by
    simp [get_free_block, get_free_block_loop, neg_first, hdr_write]
  have hm2 := malloc_miss_grown_at 2 neg_first NEGATIVE_SIZE (-16) 4204 (by decide) rfl
    hg2 hi rfl (by decide)
  refine ⟨rfl, ?_, ?_, hm2.trans rfl, rfl, ?_, rfl, ?_, rfl, ?_, ?_⟩
  · simp [Tiles, neg_first, hdr_write, sizeof_header_t_eq]
  · rw [sizeof_header_t_eq]; decide
  · intro base ht
    have hb := (tiles_bounds neg_second.hdr [4096, 4220] base neg_second.brk ht).2 4220
      (by decide)
    have hsz : (neg_second.hdr 4220).size = NEGATIVE_SIZE := rfl
    have hbrk : neg_second.brk = 4204 := rfl
    rw [hsz, hbrk] at hb
    simp only [NEGATIVE_SIZE] at hb
    omega
  · simp [Chain, neg_third, neg_second, neg_first, set_next, hdr_write]
  · intro base ht
    have hb := (tiles_bounds neg_third.hdr [4096, 4220, 4204] base neg_third.brk ht).2 4220
      (by decide)
    have hsz : (neg_third.hdr 4220).size = NEGATIVE_SIZE := rfl
    have hbrk : neg_third.brk = 4236 := rfl
    rw [hsz, hbrk] at hb
    simp only [NEGATIVE_SIZE] at hb
    omega
  · rw [sizeof_header_t_eq]
    simp [size_add, SIZE_MOD, neg_third, neg_second, neg_first, set_next, hdr_write]

end MineMalloc
